import Mathlib

/-!
Shallow embedding of the simple-cli helper library (src/src/lib.rs) and
verification of its specification claims.

Machine-integer conventions: Rust `usize` values are modelled as `Nat`;
Rust `i32` values as `Int`, with the source's `as i32` casts modelled
explicitly by truncation to 32 bits (`i32_of_nat`).  Rust `/` and `%` on
`i32` truncate toward zero, hence `Int.tdiv` / `Int.tmod`.
-/

set_option linter.unusedVariables false

namespace SimpleCli

/-- Rust `as i32` cast of a `usize` value: truncate to 32 bits and
reinterpret the low word as a signed two-complement integer. -/
def i32_of_nat (n : Nat) : Int :=
  let r : Int := (n : Int) % 4294967296
  if r < 2147483648 then r else r - 4294967296

/-- Rust nightly `i32::div_ceil` (feature int_roundings): truncating division,
incremented when the remainder is nonzero and has the same sign as the divisor. -/
def i32_div_ceil (a b : Int) : Int :=
  if (0 < Int.tmod a b ∧ 0 < b) ∨ (Int.tmod a b < 0 ∧ b < 0) then Int.tdiv a b + 1
  else Int.tdiv a b

/-- Rust half-open range `a..b` over `i32`, collected to a list in order. -/
def intRange (a b : Int) : List Int :=
  (List.range (b - a).toNat).map (fun (k : Nat) => a + (k : Int))

/-- Per-character lowercasing, the behaviour of Rust `str::to_lowercase`
on the ASCII data the library works with. -/
def toLowerStr (s : String) : String :=
  String.mk (s.data.map Char.toLower)

/-- Rust `str::trim`: strip whitespace from both ends. -/
def trimStr (s : String) : String :=
  String.mk ((((s.data.dropWhile Char.isWhitespace).reverse).dropWhile Char.isWhitespace).reverse)

def digitVal (c : Char) : Nat := c.toNat - 48

def parseDigits (cs : List Char) : Option Nat :=
  if cs = [] then none
  else if cs.all Char.isDigit then some (cs.foldl (fun acc c => acc * 10 + digitVal c) 0)
  else none

/-- Model of Rust `str::parse` to an integer type: optional sign then digits. -/
def parseIntOpt (s : String) : Option Int :=
  match s.data with
  | [] => none
  | c :: rest =>
    if c = '-' then (parseDigits rest).map (fun n => -(n : Int))
    else if c = '+' then (parseDigits rest).map (fun n => (n : Int))
    else (parseDigits (c :: rest)).map (fun n => (n : Int))

/-- `check_length` from src/src/lib.rs: the `usize` length is cast `as i32`
and compared against the optional maximum. -/
def check_length (length : Nat) (max_length : Option Int) : Bool :=
  match max_length with
  | some max_val =>
    let input_length := i32_of_nat length
    if input_length > max_val then false else true
  | none => true

/-- `check_empty` from src/src/lib.rs. -/
def check_empty (length : Nat) (can_be_empty : Bool) : Bool :=
  let input_length := i32_of_nat length
  if input_length ≤ 0 ∧ can_be_empty = false then false else true

/-- Which diagnostic `check_min_max` prints on rejection. -/
inductive RangeDiag
  | belowMin (v m : Int)
  | aboveMax (v m : Int)
  deriving DecidableEq

/-- `check_min_max` from src/src/lib.rs, instantiated at `Int`, together with
the diagnostic it prints: the minimum bound is tested first and returns early. -/
def check_min_max_run (number : Int) (min_value max_value : Option Int) :
    Bool × Option RangeDiag :=
  match min_value with
  | some minv =>
    if number < minv then (false, some (RangeDiag.belowMin number minv))
    else
      match max_value with
      | some maxv =>
        if number > maxv then (false, some (RangeDiag.aboveMax number maxv)) else (true, none)
      | none => (true, none)
  | none =>
    match max_value with
    | some maxv =>
      if number > maxv then (false, some (RangeDiag.aboveMax number maxv)) else (true, none)
    | none => (true, none)

/-- The boolean result of `check_min_max`. -/
def check_min_max (number : Int) (min_value max_value : Option Int) : Bool :=
  (check_min_max_run number min_value max_value).1

/-- The membership loop of `check_number_is_a_choice`. -/
def numberChoiceLoop (number : Int) : List Int → Bool
  | [] => false
  | c :: rest => if number = c then true else numberChoiceLoop number rest

/-- `check_number_is_a_choice` from src/src/lib.rs (the flag only affects
which diagnostic is printed, not the result). -/
def check_number_is_a_choice (number : Int) (choices : List Int)
    (show_choices_on_failure : Bool) : Bool :=
  numberChoiceLoop number choices

/-- The membership loop of `check_string_is_a_choice`: exact equality first,
then case-insensitive equality when `case_sensitive` is off. -/
def stringChoiceLoop (input : String) (case_sensitive : Bool) : List String → Bool
  | [] => false
  | c :: rest =>
    if input = c then true
    else if toLowerStr input = toLowerStr c ∧ case_sensitive = false then true
    else stringChoiceLoop input case_sensitive rest

/-- `check_string_is_a_choice` from src/src/lib.rs. -/
def check_string_is_a_choice (input : String) (choices : List String)
    (case_sensitive : Bool) (show_choices_on_failure : Bool) : Bool :=
  stringChoiceLoop input case_sensitive choices

/-- The two unrecoverable conditions of the acquisition loops: an empty
choice vector (a panic before any read), and a failing stream read
(a panic inside the loop; in the model, an exhausted input script). -/
inductive FatalErr
  | emptyChoices
  | streamClosed
  deriving DecidableEq

/-- The diagnostics `get_number` can print on a rejected attempt. -/
inductive NumDiag
  | invalidValue
  | range (d : RangeDiag)
  deriving DecidableEq

/-- The retry loop of `get_number`, driven by a script of input lines: each
line is trimmed and parsed; a parse failure prints the invalid-value
diagnostic and retries, a `check_min_max` failure prints its range diagnostic
and retries, and the first accepted number is returned together with the
diagnostics of the rejected attempts, in order. -/
def getNumberLoop (min_value max_value : Option Int) :
    List String → Except FatalErr (Int × List NumDiag)
  | [] => Except.error FatalErr.streamClosed
  | line :: rest =>
    match parseIntOpt (trimStr line) with
    | none =>
      (getNumberLoop min_value max_value rest).map
        (fun r => (r.1, NumDiag.invalidValue :: r.2))
    | some number =>
      match check_min_max_run number min_value max_value with
      | (true, _) => Except.ok (number, [])
      | (false, some d) =>
        (getNumberLoop min_value max_value rest).map
          (fun r => (r.1, NumDiag.range d :: r.2))
      | (false, none) =>
        (getNumberLoop min_value max_value rest).map
          (fun r => (r.1, NumDiag.invalidValue :: r.2))

/-- `get_number` from src/src/lib.rs at an integer type, with stdin replaced
by a script of lines (the prompts only produce output and are ignored). -/
def get_number (prompt repeat_message : Option String)
    (min_value max_value : Option Int) (script : List String) :
    Except FatalErr (Int × List NumDiag) :=
  getNumberLoop min_value max_value script

/-- The retry loop of `select_number_from_choices`; the second component
counts the input lines consumed. -/
def selectNumberLoop (choices : List Int) (show_choices_on_failure : Bool) :
    List String → Except FatalErr Int × Nat
  | [] => (Except.error FatalErr.streamClosed, 0)
  | line :: rest =>
    match parseIntOpt (trimStr line) with
    | some number =>
      if check_number_is_a_choice number choices show_choices_on_failure then
        (Except.ok number, 1)
      else
        ((selectNumberLoop choices show_choices_on_failure rest).1,
          (selectNumberLoop choices show_choices_on_failure rest).2 + 1)
    | none =>
      ((selectNumberLoop choices show_choices_on_failure rest).1,
        (selectNumberLoop choices show_choices_on_failure rest).2 + 1)

/-- `select_number_from_choices` from src/src/lib.rs: the emptiness check on
the choice vector runs before the loop touches the input script. -/
def select_number_from_choices (prompt repeat_message : Option String)
    (choices : List Int) (show_choices_on_failure : Bool) (script : List String) :
    Except FatalErr Int × Nat :=
  if choices.length = 0 then (Except.error FatalErr.emptyChoices, 0)
  else selectNumberLoop choices show_choices_on_failure script

/-- The retry loop of `select_string_from_choices`: on success the trimmed
input line itself is returned. -/
def selectStringLoop (choices : List String)
    (case_sensitive show_choices_on_failure : Bool) :
    List String → Except FatalErr String × Nat
  | [] => (Except.error FatalErr.streamClosed, 0)
  | line :: rest =>
    if check_string_is_a_choice (trimStr line) choices case_sensitive show_choices_on_failure then
      (Except.ok (trimStr line), 1)
    else
      ((selectStringLoop choices case_sensitive show_choices_on_failure rest).1,
        (selectStringLoop choices case_sensitive show_choices_on_failure rest).2 + 1)

/-- `select_string_from_choices` from src/src/lib.rs: the emptiness check on
the choice vector runs before the loop touches the input script. -/
def select_string_from_choices (prompt repeat_message : Option String)
    (choices : List String) (case_sensitive show_choices_on_failure : Bool)
    (script : List String) : Except FatalErr String × Nat :=
  if choices.length = 0 then (Except.error FatalErr.emptyChoices, 0)
  else selectStringLoop choices case_sensitive show_choices_on_failure script

/-- `number_of_pages` as computed by `paginated_list`: `div_ceil`, floored at 1
when the quotient is zero. -/
def number_of_pages (number_of_items items_per_page : Int) : Int :=
  if i32_div_ceil number_of_items items_per_page = 0 then 1
  else i32_div_ceil number_of_items items_per_page

/-- The page count of `paginated_list` as a function of the slice length,
including the `items.len() as i32` cast the source performs. -/
def total_pages_of (len : Nat) (items_per_page : Int) : Int :=
  number_of_pages (i32_of_nat len) items_per_page

/-- `end_index` as computed by the render step of `paginated_list`:
the item count on the last page, `current_page * items_per_page` otherwise. -/
def end_index (number_of_items items_per_page current_page : Int) : Int :=
  if current_page = number_of_pages number_of_items items_per_page then number_of_items
  else current_page * items_per_page

/-- The item indices the render step of `paginated_list` prints, in order:
the loop `((current_page - 1) * items_per_page)..end_index`, guarded by
`number_of_items > 0`. -/
def render_indices (number_of_items items_per_page current_page : Int) : List Int :=
  if 0 < number_of_items then
    intRange ((current_page - 1) * items_per_page)
      (end_index number_of_items items_per_page current_page)
  else []

/-- The vector `(1..(number_of_pages + 1)).collect()` passed to
`select_number_from_choices` by the `S` command. -/
def pageChoices (pages : Int) : List Int := intRange 1 (pages + 1)

/-- The command step of `paginated_list`: match on the lowercased user input,
returning the new current page and whether the quit flag was set.
`s_target` is the page number the nested `select_number_from_choices`
call returns when the command is `S`. -/
def pageCommandStep (pages current_page : Int) (user_input : String)
    (s_target : Int) : Int × Bool :=
  if toLowerStr user_input = "n" then
    (if current_page < pages then current_page + 1 else current_page, false)
  else if toLowerStr user_input = "p" then
    (if current_page > 1 then current_page - 1 else current_page, false)
  else if toLowerStr user_input = "s" then (s_target, false)
  else if toLowerStr user_input = "e" then (current_page, true)
  else (current_page, false)

/-- Run the navigation loop of `paginated_list` from a given page over a
script of commands (each an input string paired with the page number the
nested selection would return for `S`); stops early when quit is set. -/
def runPagesFrom (pages current_page : Int) : List (String × Int) → Int × Bool
  | [] => (current_page, false)
  | cmd :: rest =>
    if (pageCommandStep pages current_page cmd.1 cmd.2).2 then
      ((pageCommandStep pages current_page cmd.1 cmd.2).1, true)
    else runPagesFrom pages (pageCommandStep pages current_page cmd.1 cmd.2).1 rest

/-- The navigation loop of `paginated_list`, started at page 1 as the source does. -/
def runPagination (pages : Int) (cmds : List (String × Int)) : Int × Bool :=
  runPagesFrom pages 1 cmds

/-- Observable terminal output of one `paginated_list` iteration, reduced to
what the claims need: a render of the current page, or a screen clear. -/
inductive OutEvent
  | render (page : Int)
  | clear
  deriving DecidableEq

/-- Output trace of the `paginated_list` loop over a command script: every
iteration renders the current page at the top and, when `clear_on_update`
is set, clears the terminal at the bottom — also in the iteration whose
command sets the quit flag. -/
def pagiTrace (pages : Int) (clear_on_update : Bool) (current_page : Int) :
    List (String × Int) → List OutEvent
  | [] => []
  | cmd :: rest =>
    OutEvent.render current_page ::
      ((if clear_on_update then [OutEvent.clear] else []) ++
        (if (pageCommandStep pages current_page cmd.1 cmd.2).2 then []
         else pagiTrace pages clear_on_update
           (pageCommandStep pages current_page cmd.1 cmd.2).1 rest))

lemma mem_intRange {x a b : Int} : x ∈ intRange a b ↔ a ≤ x ∧ x < b := by
  unfold intRange
  rw [List.mem_map]
  constructor
  · rintro ⟨k, hk, rfl⟩
    rw [List.mem_range] at hk
    omega
  · rintro ⟨h1, h2⟩
    refine ⟨(x - a).toNat, ?_, ?_⟩
    · rw [List.mem_range]
      omega
    · omega

lemma i32_div_ceil_eq {n b : Int} (hn : 0 ≤ n) (hb : 0 < b) :
    i32_div_ceil n b = if 0 < n % b then n / b + 1 else n / b := by
  unfold i32_div_ceil
  rw [Int.tdiv_eq_ediv hn hb.le, Int.tmod_eq_emod hn hb.le]
  rcases lt_or_le 0 (n % b) with h | h
  · rw [if_pos (Or.inl ⟨h, hb⟩), if_pos h]
  · rw [if_neg, if_neg (not_lt.mpr h)]
    rintro (⟨h1, _⟩ | ⟨_, h2⟩) <;> omega

lemma number_of_pages_zero (b : Int) : number_of_pages 0 b = 1 := by
  unfold number_of_pages i32_div_ceil
  simp [Int.zero_tdiv, Int.zero_tmod]

lemma one_le_number_of_pages {n b : Int} (hn : 0 ≤ n) (hb : 0 < b) :
    1 ≤ number_of_pages n b := by
  unfold number_of_pages
  rw [i32_div_ceil_eq hn hb]
  have hq : 0 ≤ n / b := Int.ediv_nonneg hn hb.le
  split_ifs <;> omega

lemma le_number_of_pages_mul {n b : Int} (hn : 0 ≤ n) (hb : 0 < b) :
    n ≤ number_of_pages n b * b := by
  have key := Int.ediv_add_emod n b
  have hlt := Int.emod_lt_of_pos n hb
  have hnn := Int.emod_nonneg n (ne_of_gt hb)
  have hq : 0 ≤ n / b := Int.ediv_nonneg hn hb.le
  unfold number_of_pages
  rw [i32_div_ceil_eq hn hb]
  by_cases h : 0 < n % b
  · rw [if_pos h, if_neg (by omega)]
    have e : (n / b + 1) * b = b * (n / b) + b := by ring
    linarith
  · rw [if_neg h]
    by_cases hq0 : n / b = 0
    · rw [if_pos hq0]
      have e : b * (n / b) = 0 := by rw [hq0]; ring
      linarith
    · rw [if_neg hq0]
      have e : n / b * b = b * (n / b) := by ring
      linarith

lemma pred_number_of_pages_mul_lt {n b : Int} (hn : 0 < n) (hb : 0 < b) :
    (number_of_pages n b - 1) * b < n := by
  have key := Int.ediv_add_emod n b
  have hlt := Int.emod_lt_of_pos n hb
  have hnn := Int.emod_nonneg n (ne_of_gt hb)
  have hq : 0 ≤ n / b := Int.ediv_nonneg hn.le hb.le
  unfold number_of_pages
  rw [i32_div_ceil_eq hn.le hb]
  by_cases h : 0 < n % b
  · rw [if_pos h, if_neg (by omega)]
    have e : (n / b + 1 - 1) * b = b * (n / b) := by ring
    linarith
  · rw [if_neg h]
    have hr0 : n % b = 0 := by omega
    have hq1 : n / b ≠ 0 := by
      intro h0
      rw [h0] at key
      simp at key
      omega
    rw [if_neg hq1]
    have e : (n / b - 1) * b = b * (n / b) - b := by ring
    linarith

lemma numberChoiceLoop_iff (n : Int) (choices : List Int) :
    numberChoiceLoop n choices = true ↔ n ∈ choices := by
  induction choices with
  | nil => simp [numberChoiceLoop]
  | cons c rest ih =>
    unfold numberChoiceLoop
    rw [List.mem_cons]
    split_ifs with h
    · exact iff_of_true rfl (Or.inl h)
    · rw [ih]
      constructor
      · exact Or.inr
      · rintro (h1 | h1)
        · exact absurd h1 h
        · exact h1

lemma stringChoiceLoop_iff (input : String) (cs : Bool) (choices : List String) :
    stringChoiceLoop input cs choices = true ↔
      ∃ c ∈ choices, input = c ∨ (toLowerStr input = toLowerStr c ∧ cs = false) := by
  induction choices with
  | nil => simp [stringChoiceLoop]
  | cons c rest ih =>
    unfold stringChoiceLoop
    simp only [List.mem_cons]
    split_ifs with h1 h2
    · exact iff_of_true rfl ⟨c, Or.inl rfl, Or.inl h1⟩
    · exact iff_of_true rfl ⟨c, Or.inl rfl, Or.inr h2⟩
    · rw [ih]
      constructor
      · rintro ⟨d, hd, h⟩
        exact ⟨d, Or.inr hd, h⟩
      · rintro ⟨d, hd | hd, h⟩
        · subst hd
          rcases h with h | h
          · exact absurd h h1
          · exact absurd h h2
        · exact ⟨d, hd, h⟩

lemma selectStringLoop_ok {choices : List String} {cs sf : Bool} :
    ∀ {script : List String} {s : String},
      (selectStringLoop choices cs sf script).1 = Except.ok s →
      ∃ line ∈ script, s = trimStr line ∧ check_string_is_a_choice s choices cs sf = true := by
  intro script
  induction script with
  | nil =>
    intro s h
    simp [selectStringLoop] at h
  | cons line rest ih =>
    intro s h
    unfold selectStringLoop at h
    split_ifs at h with hc
    · simp only [Except.ok.injEq] at h
      subst h
      exact ⟨line, List.mem_cons_self _ _, rfl, hc⟩
    · obtain ⟨l, hl, h1, h2⟩ := ih h
      exact ⟨l, List.mem_cons_of_mem _ hl, h1, h2⟩

lemma selectNumberLoop_ok_mem {choices : List Int} {sf : Bool} :
    ∀ {script : List String} {v : Int},
      (selectNumberLoop choices sf script).1 = Except.ok v → v ∈ choices := by
  intro script
  induction script with
  | nil =>
    intro v h
    simp [selectNumberLoop] at h
  | cons line rest ih =>
    intro v h
    unfold selectNumberLoop at h
    split at h
    · split_ifs at h with hc
      · simp only [Except.ok.injEq] at h
        subst h
        exact (numberChoiceLoop_iff _ choices).mp hc
      · exact ih h
    · exact ih h

lemma mem_pageChoices {t pages : Int} : t ∈ pageChoices pages ↔ 1 ≤ t ∧ t ≤ pages := by
  unfold pageChoices
  rw [mem_intRange]
  omega

lemma pageCommandStep_bounds (pages p : Int) (cmd : String) (t : Int)
    (hp1 : 1 ≤ p) (hp2 : p ≤ pages)
    (ht : toLowerStr cmd = "s" → t ∈ pageChoices pages) :
    1 ≤ (pageCommandStep pages p cmd t).1 ∧ (pageCommandStep pages p cmd t).1 ≤ pages := by
  unfold pageCommandStep
  split_ifs with h1 h2 h3 h4 h5 h6 <;> simp only <;>
    first
      | omega
      | exact mem_pageChoices.mp (ht (by assumption))

lemma runPagesFrom_bounds (pages : Int) :
    ∀ (cmds : List (String × Int)) (p : Int), 1 ≤ p → p ≤ pages →
      (∀ c ∈ cmds, toLowerStr c.1 = "s" → c.2 ∈ pageChoices pages) →
      1 ≤ (runPagesFrom pages p cmds).1 ∧ (runPagesFrom pages p cmds).1 ≤ pages := by
  intro cmds
  induction cmds with
  | nil =>
    intro p h1 h2 _
    exact ⟨h1, h2⟩
  | cons cmd rest ih =>
    intro p h1 h2 hS
    have hstep := pageCommandStep_bounds pages p cmd.1 cmd.2 h1 h2
      (hS cmd (List.mem_cons_self _ _))
    unfold runPagesFrom
    split_ifs with hq
    · exact hstep
    · exact ih _ hstep.1 hstep.2 (fun c hc => hS c (List.mem_cons_of_mem _ hc))

lemma pagiTrace_cons_getLast (pages : Int) :
    ∀ (cmds : List (String × Int)) (p : Int) (cmd : String × Int),
      (pagiTrace pages true p (cmd :: cmds)).getLast? = some OutEvent.clear := by
  intro cmds
  induction cmds with
  | nil =>
    intro p cmd
    unfold pagiTrace
    split_ifs <;> first | rfl | simp_all
  | cons c2 rest ih =>
    intro p cmd
    by_cases hq : (pageCommandStep pages p cmd.1 cmd.2).2
    · unfold pagiTrace
      rw [if_pos hq]
      rfl
    · have htail := ih (pageCommandStep pages p cmd.1 cmd.2).1 c2
      unfold pagiTrace
      rw [if_neg hq]
      have hne : pagiTrace pages true (pageCommandStep pages p cmd.1 cmd.2).1 (c2 :: rest) ≠ [] := by
        intro h0
        rw [h0] at htail
        simp at htail
      calc (OutEvent.render p ::
              ([OutEvent.clear] ++
                pagiTrace pages true (pageCommandStep pages p cmd.1 cmd.2).1 (c2 :: rest))).getLast?
          = ([OutEvent.render p, OutEvent.clear] ++
              pagiTrace pages true (pageCommandStep pages p cmd.1 cmd.2).1 (c2 :: rest)).getLast? := rfl
        _ = (pagiTrace pages true (pageCommandStep pages p cmd.1 cmd.2).1 (c2 :: rest)).getLast? :=
              List.getLast?_append_of_ne_nil _ hne
        _ = some OutEvent.clear := htail

/-- C1: in `paginated_list`, for every sequence of navigation commands the
current page stays in the inclusive range `[1, total_pages]`: `N` increments
only when `page < total_pages` and is otherwise a no-op, `P` decrements only
when `page > 1` and is otherwise a no-op, and `S` sets the page to a value
taken from the choice set `{1, ..., total_pages}` (the value returned by
`select_number_from_choices` over that set is always a member of it). -/
theorem paginated_nav_invariant (pages : Int) (hpg : 1 ≤ pages)
    (cmds : List (String × Int))
    (hS : ∀ c ∈ cmds, toLowerStr c.1 = "s" → c.2 ∈ pageChoices pages) :
    (∀ p t, p < pages → (pageCommandStep pages p "N" t).1 = p + 1) ∧
    (∀ p t, pages ≤ p → (pageCommandStep pages p "N" t).1 = p) ∧
    (∀ p t, 1 < p → (pageCommandStep pages p "P" t).1 = p - 1) ∧
    (∀ p t, p ≤ 1 → (pageCommandStep pages p "P" t).1 = p) ∧
    (∀ p t, t ∈ pageChoices pages →
      (pageCommandStep pages p "S" t).1 = t ∧ 1 ≤ t ∧ t ≤ pages) ∧
    (∀ (script : List String) (pr rm : Option String) (sf : Bool) (v : Int),
      (select_number_from_choices pr rm (pageChoices pages) sf script).1 = Except.ok v →
      v ∈ pageChoices pages) ∧
    (1 ≤ (runPagination pages cmds).1 ∧ (runPagination pages cmds).1 ≤ pages) := by
  refine ⟨?_, ?_, ?_, ?_, ?_, ?_, ?_⟩
  · intro p t h
    show (if p < pages then p + 1 else p) = p + 1
    exact if_pos h
  · intro p t h
    show (if p < pages then p + 1 else p) = p
    exact if_neg (not_lt.mpr h)
  · intro p t h
    show (if p > 1 then p - 1 else p) = p - 1
    exact if_pos h
  · intro p t h
    show (if p > 1 then p - 1 else p) = p
    exact if_neg (not_lt.mpr h)
  · intro p t ht
    exact ⟨rfl, (mem_pageChoices.mp ht).1, (mem_pageChoices.mp ht).2⟩
  · intro script pr rm sf v h
    unfold select_number_from_choices at h
    split_ifs at h with hl
    exact selectNumberLoop_ok_mem h
  · exact runPagesFrom_bounds pages cmds 1 (le_refl 1) hpg hS

theorem paginated_nav_invariant_witness :
    1 ≤ (runPagination 5 [("N", 0), ("N", 0), ("N", 0), ("N", 0), ("N", 0)]).1 ∧
      (runPagination 5 [("N", 0), ("N", 0), ("N", 0), ("N", 0), ("N", 0)]).1 ≤ 5 :=
  (paginated_nav_invariant 5 (by decide) [("N", 0), ("N", 0), ("N", 0), ("N", 0), ("N", 0)]
    (by decide)).2.2.2.2.2.2

/-- C2: `paginated_list` computes `max(1, ceil(item_count / items_per_page))`
on the concrete cases the spec lists (14 items at 3 per page give 5 pages,
0 items give 1 page), but not for every item sequence: the source casts
`items.len() as i32`, so a slice of `2^31` items wraps to a negative count
and yields the negative page count `-715827882` instead of
`max(1, ceil(2147483648 / 3)) = 715827883`. -/
theorem paginated_page_count_wrap :
    total_pages_of 14 3 = 5 ∧ total_pages_of 0 3 = 1 ∧
      total_pages_of 2147483648 3 = -715827882 :=
  ⟨by decide, by decide, by decide⟩

/-- C3: on every render step of `paginated_list` with the current page `p` in
`[1, total_pages]`, the end index the code picks (item count on the last
page, `p * items_per_page` otherwise) equals `min(p * items_per_page, n)`,
and the printed indices are exactly the half-open range
`[(p-1) * items_per_page, min(p * items_per_page, n))` in order. -/
theorem paginated_render_slice (n b p : Int) (hn : 0 ≤ n) (hb : 0 < b)
    (h1 : 1 ≤ p) (h2 : p ≤ number_of_pages n b) :
    end_index n b p = min (p * b) n ∧
    render_indices n b p = intRange ((p - 1) * b) (min (p * b) n) := by
  have hmain : end_index n b p = min (p * b) n := by
    unfold end_index
    split_ifs with hp
    · have hle : n ≤ p * b := by
        rw [hp]
        exact le_number_of_pages_mul hn hb
      exact (min_eq_right hle).symm
    · have hn0 : 0 < n := by
        by_contra h0
        have hn' : n = 0 := le_antisymm (not_lt.mp h0) hn
        rw [hn', number_of_pages_zero] at h2
        exact hp (by rw [hn', number_of_pages_zero]; omega)
      have hlt := pred_number_of_pages_mul_lt hn0 hb
      have hmul : p * b ≤ (number_of_pages n b - 1) * b :=
        mul_le_mul_of_nonneg_right (by omega) hb.le
      exact (min_eq_left (le_of_lt (lt_of_le_of_lt hmul hlt))).symm
  refine ⟨hmain, ?_⟩
  unfold render_indices
  split_ifs with hpos
  · rw [hmain]
  · have hn' : n = 0 := le_antisymm (not_lt.mp hpos) hn
    subst hn'
    have hp1 : p = 1 := by
      rw [number_of_pages_zero] at h2
      omega
    subst hp1
    have hmin : min ((1:Int) * b) (0:Int) = 0 := by
      have hb' : (0:Int) ≤ 1 * b := by linarith
      omega
    rw [hmin]
    have hz : ((1:Int) - 1) * b = 0 := by ring
    rw [hz]
    symm
    unfold intRange
    simp

theorem paginated_render_slice_witness :
    end_index 14 3 5 = min (5 * 3) 14 ∧
      render_indices 14 3 5 = intRange ((5 - 1) * 3) (min (5 * 3) 14) :=
  paginated_render_slice 14 3 5 (by decide) (by decide) (by decide) (by decide)

/-- C4: `check_min_max` returns false iff the minimum is present and the
value is below it, or the maximum is present and the value is above it; it
returns true otherwise, and the minimum bound is checked first: whenever the
minimum is present and violated, the printed diagnostic is the
below-minimum one, regardless of the maximum. -/
theorem check_min_max_spec (v : Int) (min_value max_value : Option Int) :
    (check_min_max v min_value max_value = false ↔
      (∃ m, min_value = some m ∧ v < m) ∨ (∃ m, max_value = some m ∧ v > m)) ∧
    (∀ m, min_value = some m → v < m →
      (check_min_max_run v min_value max_value).2 = some (RangeDiag.belowMin v m)) := by
  constructor
  · rcases min_value with _ | mn <;> rcases max_value with _ | mx <;>
      simp only [check_min_max, check_min_max_run] <;>
      first
        | (split_ifs <;> simp_all)
        | simp_all
  · intro m hm hv
    subst hm
    simp only [check_min_max_run]
    rw [if_pos hv]

theorem check_min_max_spec_witness :
    (check_min_max_run 0 (some 1) (some (-1))).2 = some (RangeDiag.belowMin 0 1) :=
  (check_min_max_spec 0 (some 1) (some (-1))).2 1 rfl (by decide)

/-- C5: `check_string_is_a_choice` accepts a value iff it equals some element
of the choice set exactly, or case sensitivity is disabled and it equals some
element under case-insensitive (lowercased) comparison; in particular "EARL"
against ["Earl", "Roger", "Mark"] is accepted with `case_sensitive = false`
and rejected with `case_sensitive = true`. -/
theorem string_choice_member_spec :
    (∀ (input : String) (choices : List String) (case_sensitive show_failure : Bool),
      check_string_is_a_choice input choices case_sensitive show_failure = true ↔
        ∃ c ∈ choices, input = c ∨
          (case_sensitive = false ∧ toLowerStr input = toLowerStr c)) ∧
    check_string_is_a_choice "EARL" ["Earl", "Roger", "Mark"] false true = true ∧
    check_string_is_a_choice "EARL" ["Earl", "Roger", "Mark"] true true = false := by
  refine ⟨?_, by decide, by decide⟩
  intro input choices cs sf
  unfold check_string_is_a_choice
  rw [stringChoiceLoop_iff]
  constructor
  · rintro ⟨c, hc, h | ⟨h1, h2⟩⟩
    · exact ⟨c, hc, Or.inl h⟩
    · exact ⟨c, hc, Or.inr ⟨h2, h1⟩⟩
  · rintro ⟨c, hc, h | ⟨h1, h2⟩⟩
    · exact ⟨c, hc, Or.inl h⟩
    · exact ⟨c, hc, Or.inr ⟨h2, h1⟩⟩

/-- C6: `check_length` accepts whenever the maximum is absent, and on the
small inputs behaves as `n ≤ m`; but not for every length: the source casts
the `usize` length `as i32`, so a length of `2^31` wraps to `-2^31` and is
accepted against a maximum of 10, where the claim requires rejection. -/
theorem check_length_wrap :
    check_length 5 (some 10) = true ∧ check_length 11 (some 10) = false ∧
      check_length 7 none = true ∧ check_length 2147483648 (some 10) = true :=
  ⟨by decide, by decide, rfl, by decide⟩

/-- C7: calling `select_number_from_choices` or `select_string_from_choices`
with an empty choice sequence fails immediately with the fatal
empty-choices error, consuming zero lines of the input script, for every
configuration and every input script. -/
theorem empty_choices_fail_fast (script : List String)
    (prompt repeat_message : Option String)
    (case_sensitive show_choices_on_failure : Bool) :
    select_number_from_choices prompt repeat_message [] show_choices_on_failure script =
      (Except.error FatalErr.emptyChoices, 0) ∧
    select_string_from_choices prompt repeat_message [] case_sensitive
        show_choices_on_failure script =
      (Except.error FatalErr.emptyChoices, 0) :=
  ⟨rfl, rfl⟩

theorem empty_choices_fail_fast_witness :
    select_number_from_choices none none [] true ["7"] =
      (Except.error FatalErr.emptyChoices, 0) ∧
    select_string_from_choices none none [] false true ["7"] =
      (Except.error FatalErr.emptyChoices, 0) :=
  empty_choices_fail_fast ["7"] none none false true

/-- C8: `get_number` with bounds `min = 1`, `max = 100`, fed the successive
input lines "abc", "500", "42", rejects the first attempt with the
invalid-value diagnostic, rejects the second with the exceeds-maximum
diagnostic, and returns 42 on the third attempt. -/
theorem get_number_retry_scenario :
    get_number none none (some 1) (some 100) ["abc", "500", "42"] =
      Except.ok (42, [NumDiag.invalidValue, NumDiag.range (RangeDiag.aboveMax 500 100)]) := rfl

/-- C9: when `select_string_from_choices` accepts an input line, it returns
the trimmed input exactly as typed, not the matching element of the choice
set: every accepted value is the trim of some script line that passes
`check_string_is_a_choice`, and with `case_sensitive = false` the returned
string "EARL" differs from every element of ["Earl", "Roger", "Mark"]. -/
theorem select_string_returns_typed_input :
    (∀ (choices script : List String) (prompt repeat_message : Option String)
        (case_sensitive show_failure : Bool) (s : String),
      (select_string_from_choices prompt repeat_message choices case_sensitive
          show_failure script).1 = Except.ok s →
      ∃ line ∈ script, s = trimStr line ∧
        check_string_is_a_choice s choices case_sensitive show_failure = true) ∧
    (select_string_from_choices none none ["Earl", "Roger", "Mark"] false true ["EARL"]).1 =
      Except.ok "EARL" ∧
    "EARL" ∉ (["Earl", "Roger", "Mark"] : List String) := by
  refine ⟨?_, rfl, by decide⟩
  intro choices script pr rm cs sf s h
  unfold select_string_from_choices at h
  split_ifs at h with hl
  exact selectStringLoop_ok h

theorem select_string_returns_typed_input_witness :
    ∃ line ∈ (["EARL"] : List String), "EARL" = trimStr line ∧
      check_string_is_a_choice "EARL" ["Earl", "Roger", "Mark"] false true = true :=
  select_string_returns_typed_input.1 ["Earl", "Roger", "Mark"] ["EARL"] none none false true
    "EARL" select_string_returns_typed_input.2.1

/-- C10: in `paginated_list` with `clear_on_update` set, the terminal is
cleared at the end of every loop iteration: the output trace of any
nonempty command script ends with a clear event, and in particular the
iteration whose command is `E` (exit) renders and then clears even though
no further render follows. -/
theorem paginated_clear_after_exit (pages p : Int) :
    (∀ (cmds : List (String × Int)), cmds ≠ [] →
      (pagiTrace pages true p cmds).getLast? = some OutEvent.clear) ∧
    (∀ t : Int, pagiTrace pages true p [("E", t)] = [OutEvent.render p, OutEvent.clear]) := by
  constructor
  · intro cmds h
    cases cmds with
    | nil => exact absurd rfl h
    | cons cmd rest => exact pagiTrace_cons_getLast pages rest p cmd
  · intro t
    rfl

end SimpleCli
